import Mathlib

/-!
Circuit Playground speaker driver (`utility/Adafruit_CPlay_Speaker.cpp`).

A shallow embedding of `Adafruit_CPlay_Speaker` in both of its conditional
compilation variants:

* `CPlay.Avr`     : the `#ifdef __AVR__` branches (Timer/Counter 4 fast PWM, cycle
  counted playback written in inline assembly);
* `CPlay.Express` : the `#else` branches (true analog output, playback paced by
  polling `micros()`).

Machine integers are natural numbers with explicit reduction modulo `2^w` where
the C code can wrap.  A division whose divisor is zero is a fault.  Loops whose
termination is not structural carry a fuel argument and end in the fault
`outOfFuel` when it runs out.
-/

set_option linter.unusedVariables false
set_option maxRecDepth 100000

namespace CPlay

/-- Ways in which a call can fail to return normally. -/
inductive Fault where
  | divideByZero
  | outOfFuel
  deriving DecidableEq, Repr

/-- Arduino pin direction, as passed to `pinMode`. -/
inductive PinMode where
  | INPUT
  | OUTPUT
  deriving DecidableEq, Repr

deriving instance DecidableEq for Except

/-- C integer division `a / b` on unsigned operands: a zero divisor is a fault. -/
def udiv (a b : Nat) : Except Fault Nat :=
  if b = 0 then .error .divideByZero else .ok (a / b)

/-! ## The true-analog-output variant (`#else` branches) -/

namespace Express

/-- The two board pins the driver touches. -/
inductive Pin where
  | A0
  | CPLAY_SPEAKER_SHUTDOWN
  deriving DecidableEq, Repr

/-- Hardware operations performed by the driver, in program order. -/
inductive Event where
  | analogWriteResolution (bits : Nat)
  | pinMode (pin : Pin) (mode : PinMode)
  | digitalWrite (pin : Pin) (level : Bool)
  | load (i : Nat)
  | analogWrite (pin : Pin) (value : Nat)
  deriving DecidableEq, Repr

/-- Driver flag `started` together with the hardware it drives. -/
structure State where
  started : Bool
  writeResolution : Nat
  modeA0 : PinMode
  levelA0 : Nat
  shutdownLine : Bool
  deriving DecidableEq, Repr

/-- Values written to the output level (`analogWrite(A0, _)`), in order. -/
def levelWrites : List Event → List Nat
  | [] => []
  | .analogWrite .A0 v :: l => v :: levelWrites l
  | _ :: l => levelWrites l

/-- Indices of `data` that were read, in order. -/
def loads : List Event → List Nat
  | [] => []
  | .load i :: l => i :: loads l
  | _ :: l => loads l

/-- `Adafruit_CPlay_Speaker::begin`, lines 28-31. -/
def begin (s : State) : State × List Event :=
  ({ s with writeResolution := 8, modeA0 := .OUTPUT },
   [.analogWriteResolution 8, .pinMode .A0 .OUTPUT])

/-- `Adafruit_CPlay_Speaker::enable`, line 39. -/
def enable (e : Bool) (s : State) : State × List Event :=
  ({ s with shutdownLine := e }, [.digitalWrite .CPLAY_SPEAKER_SHUTDOWN e])

/-- `Adafruit_CPlay_Speaker::end`, lines 52-54. -/
def «end» (s : State) : State × List Event :=
  ({ s with modeA0 := .INPUT, started := false }, [.pinMode .A0 .INPUT])

/-- `Adafruit_CPlay_Speaker::set`, lines 62 and 66. -/
def set (value : Nat) (s : State) : State × List Event :=
  let r := if !s.started then begin s else (s, [])
  ({ r.1 with levelA0 := value }, r.2 ++ [.analogWrite .A0 value])

/-- Right-hand side of the wait condition, `(i * 10000UL + r2) / sampleRate`,
in `uint32_t` arithmetic. -/
def target (i r2 sampleRate : Nat) : Except Fault Nat :=
  udiv ((i * 10000 + r2) % 2 ^ 32) sampleRate

/-- The wait condition of lines 118-119 and 122-123 as a function of the elapsed
time `micros() - startTime`:
`((elapsed + 50) / 100) < ((i * 10000UL + r2) / sampleRate)`. -/
def stillWaiting (elapsed i r2 sampleRate : Nat) : Except Fault Bool :=
  match target i r2 sampleRate with
  | .error f => .error f
  | .ok t => .ok (decide ((elapsed + 50) % 2 ^ 32 / 100 < t))

/-- The `uint32_t` difference `micros() - startTime`. -/
def elapsed (now startTime : Nat) : Nat :=
  (now % 2 ^ 32 + 2 ^ 32 - startTime % 2 ^ 32) % 2 ^ 32

/-- The busy-wait `while(cond);`.  `micros k` is the value returned by the
`k`-th call of `micros()` made by `playSound`; the result is the index of the
next call. -/
def busyWait (micros : Nat → Nat) (startTime i r2 sampleRate : Nat) :
    Nat → Nat → Except Fault Nat
  | 0, _ => .error .outOfFuel
  | fuel + 1, k =>
    match stillWaiting (elapsed (micros k) startTime) i r2 sampleRate with
    | .error f => .error f
    | .ok true => busyWait micros startTime i r2 sampleRate fuel (k + 1)
    | .ok false => .ok (k + 1)

/-- The loop `for(i=0; i<len; i++)` of lines 117-121, entered at index `i` with
`todo = len - i` iterations left. -/
def sampleFor (micros : Nat → Nat) (data : Nat → Nat)
    (startTime r2 sampleRate fuel : Nat) :
    Nat → Nat → Nat → State → Except Fault (Nat × Nat × State × List Event)
  | 0, i, k, s => .ok (i, k, s, [])
  | todo + 1, i, k, s =>
    match busyWait micros startTime i r2 sampleRate fuel k with
    | .error f => .error f
    | .ok k1 =>
      match sampleFor micros data startTime r2 sampleRate fuel todo (i + 1) k1
          { s with levelA0 := data i } with
      | .error f => .error f
      | .ok (j, k2, s2, l) =>
        .ok (j, k2, s2, .load i :: .analogWrite .A0 (data i) :: l)

/-- `Adafruit_CPlay_Speaker::playSound`, lines 114-124.  `data i` is `data[i]`;
`fuel` bounds the number of polls of one busy-wait. -/
def playSound (micros : Nat → Nat) (fuel : Nat) (data : Nat → Nat)
    (len sampleRate : Nat) (tenBit : Bool) (s : State) :
    Except Fault (State × List Event) :=
  let r2 := sampleRate / 2
  let startTime := micros 0 % 2 ^ 32
  match sampleFor micros data startTime r2 sampleRate fuel len 0 1 s with
  | .error f => .error f
  | .ok (i, k, s1, l) =>
    match busyWait micros startTime i r2 sampleRate fuel k with
    | .error f => .error f
    | .ok _ => .ok ({ s1 with levelA0 := 127 }, l ++ [.analogWrite .A0 127])

end Express

/-! ## The timer-peripheral variant (`#ifdef __AVR__` branches) -/

namespace Avr

/-- Bit numbers of the Timer/Counter 4 control registers.  They come from the
device header of the toolchain, which is not part of this library, and are
parameters of the model. -/
structure Bits where
  COM4A0 : Nat
  PWM4A : Nat
  PWM4X : Nat
  CS40 : Nat
  deriving DecidableEq, Repr

/-- The `_BV(bit)` of the toolchain: `1 << bit`. -/
def _BV (bit : Nat) : Nat := 1 <<< bit

/-- Special function registers written by the driver. -/
inductive Reg where
  | PLLFRQ
  | TCCR4A
  | TCCR4B
  | TCCR4D
  | TCCR4E
  | TC4H
  | DT4
  | OCR4C
  | OCR4A
  deriving DecidableEq, Repr

/-- Hardware operations performed by the driver, in program order: a register
store, a `pinMode` call, an `lpm` fetch of the byte `i` places after `data`, and
one run of `audioDelayLoop` with the number of passes it made. -/
inductive Event where
  | store (r : Reg) (value : Nat)
  | pinMode (pin : Nat) (mode : PinMode)
  | lpm (i : Nat)
  | delay (passes : Nat)
  deriving DecidableEq, Repr

/-- Driver flag `started` together with the registers and the pin it drives. -/
structure State where
  started : Bool
  PLLFRQ : Nat
  TCCR4A : Nat
  TCCR4B : Nat
  TCCR4D : Nat
  TCCR4E : Nat
  TC4H : Nat
  DT4 : Nat
  OCR4C : Nat
  OCR4A : Nat
  mode5 : PinMode
  deriving DecidableEq, Repr

/-- Values stored to the PWM duty-cycle register `OCR4A`, in order. -/
def levelWrites : List Event → List Nat
  | [] => []
  | .store .OCR4A v :: l => v :: levelWrites l
  | _ :: l => levelWrites l

/-- Offsets from `data` that were fetched with `lpm`, in order. -/
def loads : List Event → List Nat
  | [] => []
  | .lpm i :: l => i :: loads l
  | _ :: l => loads l

/-- `Adafruit_CPlay_Speaker::begin`, lines 16-26. -/
def begin (hw : Bits) (s : State) : State × List Event :=
  let pll := (s.PLLFRQ &&& 0xCF) ||| 0x30
  let a := _BV hw.COM4A0 ||| _BV hw.PWM4A
  let b := _BV hw.PWM4X ||| _BV hw.CS40
  ({ s with
      PLLFRQ := pll, TCCR4A := a, TCCR4B := b, TCCR4D := 0, TCCR4E := 0,
      TC4H := 0, DT4 := 0, OCR4C := 255, OCR4A := 127, started := true,
      mode5 := .OUTPUT },
   [.store .PLLFRQ pll, .store .TCCR4A a, .store .TCCR4B b, .store .TCCR4D 0,
    .store .TCCR4E 0, .store .TC4H 0, .store .DT4 0, .store .OCR4C 255,
    .store .OCR4A 127, .pinMode 5 .OUTPUT])

/-- `Adafruit_CPlay_Speaker::enable`: empty on this variant. -/
def enable (e : Bool) (s : State) : State × List Event := (s, [])

/-- `Adafruit_CPlay_Speaker::end`, lines 49-50 and 54. -/
def «end» (s : State) : State × List Event :=
  ({ s with TCCR4A := 0, mode5 := .INPUT, started := false },
   [.store .TCCR4A 0, .pinMode 5 .INPUT])

/-- `Adafruit_CPlay_Speaker::set`, lines 62 and 64. -/
def set (hw : Bits) (value : Nat) (s : State) : State × List Event :=
  let r := if !s.started then begin hw s else (s, [])
  ({ r.1 with TCCR4A := value }, r.2 ++ [.store .TCCR4A value])

/-- The clamp of line 80. -/
def clampRate (sampleRate : Nat) : Nat :=
  if sampleRate < 7620 then 7620 else sampleRate

/-- The `uint8_t interval` of line 82, from the already clamped rate:
`(F_CPU / 4 + sampleRate / 2) / sampleRate - 6`, truncated to eight bits. -/
def interval (F_CPU sampleRate : Nat) : Except Fault Nat :=
  match udiv (F_CPU / 4 + sampleRate / 2) sampleRate with
  | .error f => .error f
  | .ok q => .ok ((q + 256 - 6) % 256)

/-- `audioDelayLoop` (lines 98-101): `nop; dec counter; brne audioDelayLoop` on
an 8-bit register.  Returns the number of passes made. -/
def audioDelayLoop : Nat → Nat → Except Fault Nat
  | 0, _ => .error .outOfFuel
  | fuel + 1, counter =>
    let counter := (counter + 255) % 256
    if counter ≠ 0 then
      match audioDelayLoop fuel counter with
      | .error f => .error f
      | .ok passes => .ok (passes + 1)
    else .ok 1

/-- `audioSampleLoop` (lines 94-103).  `z` counts the `Z+` increments made so
far, so that `lpm` fetches `data z`; `bytesToGo` is the 16-bit register pair
decremented by `sbiw`. -/
def audioSampleLoop (data : Nat → Nat) (interval : Nat) :
    Nat → Nat → Nat → State → Except Fault (State × List Event)
  | 0, _, _, _ => .error .outOfFuel
  | fuel + 1, z, bytesToGo, s =>
    let x := data z
    let s := { s with OCR4A := x }
    match audioDelayLoop 256 interval with
    | .error f => .error f
    | .ok passes =>
      let bytesToGo := (bytesToGo + 65535) % 65536
      if bytesToGo ≠ 0 then
        match audioSampleLoop data interval fuel (z + 1) bytesToGo s with
        | .error f => .error f
        | .ok (s1, l) => .ok (s1, .lpm z :: .store .OCR4A x :: .delay passes :: l)
      else .ok (s, [.lpm z, .store .OCR4A x, .delay passes])

/-- `Adafruit_CPlay_Speaker::playSound`, lines 80-112.  `data i` is the byte
program memory holds `i` places after the pointer `data`. -/
def playSound (hw : Bits) (F_CPU : Nat) (data : Nat → Nat)
    (len sampleRate : Nat) (tenBit : Bool) (s : State) :
    Except Fault (State × List Event) :=
  let sampleRate := clampRate sampleRate
  match interval F_CPU sampleRate with
  | .error f => .error f
  | .ok interval =>
    let bytesToGo := len % 65536
    let r := if !s.started then begin hw s else (s, [])
    match audioSampleLoop data interval 65536 0 bytesToGo r.1 with
    | .error f => .error f
    | .ok (s1, l) =>
      .ok ({ s1 with OCR4A := 127 }, r.2 ++ l ++ [.store .OCR4A 127])

end Avr

/-! ## Auxiliary definitions used to state the results -/

namespace Avr

/-- Events of `n` consecutive passes of `audioSampleLoop` starting at offset `z`,
each followed by a delay of `P` passes. -/
def sampleEvents (data : Nat → Nat) (P : Nat) : Nat → Nat → List Event
  | _, 0 => []
  | z, n + 1 =>
    .lpm z :: .store .OCR4A (data z) :: .delay P :: sampleEvents data P (z + 1) n

/-- The state in which `playSound` enters the sample loop, and the events of
getting there. -/
def entry (hw : Bits) (s : State) : State × List Event :=
  if !s.started then begin hw s else (s, [])

/-- Pass counts of the runs of `audioDelayLoop`, in order. -/
def delays : List Event → List Nat
  | [] => []
  | .delay p :: l => p :: delays l
  | _ :: l => delays l

/-- Number of passes of `audioSampleLoop` made for a 32-bit `len`. -/
def passCount (len : Nat) : Nat :=
  if len % 65536 = 0 then 65536 else len % 65536

end Avr

namespace Express

/-- Events of `n` consecutive iterations of the `for` loop starting at index `i`. -/
def sampleEvents (data : Nat → Nat) : Nat → Nat → List Event
  | _, 0 => []
  | i, n + 1 => .load i :: .analogWrite .A0 (data i) :: sampleEvents data (i + 1) n

/-- Every wait of a playback of `len` samples, entered at any poll, sees within
`fuel` polls a clock reading that ends it. -/
def EndsWithin (micros : Nat → Nat) (startTime r2 sampleRate fuel len : Nat) : Prop :=
  ∀ i, i ≤ len → ∀ k, ∃ j, k ≤ j ∧ j < k + fuel ∧
    stillWaiting (elapsed (micros j) startTime) i r2 sampleRate = .ok false

end Express

/-- The five-sample buffer `[0, 64, 128, 192, 255]`, read as `data[i]`. -/
def fiveSamples : Nat → Nat := fun i => [0, 64, 128, 192, 255].getD i 0

/-- A clock that is read once every millisecond. -/
def msClock : Nat → Nat := fun k => 1000 * k

/-- An inactive driver on the true-analog board: pin not driven, 10-bit writes. -/
def Express.inactive : Express.State :=
  { started := false, writeResolution := 10, modeA0 := .INPUT, levelA0 := 0,
    shutdownLine := false }

/-- An inactive driver on the timer board, all registers cleared. -/
def Avr.inactive : Avr.State :=
  { started := false, PLLFRQ := 0, TCCR4A := 0, TCCR4B := 0, TCCR4D := 0, TCCR4E := 0,
    TC4H := 0, DT4 := 0, OCR4C := 0, OCR4A := 0, mode5 := .INPUT }

/-- Bit numbers of the ATmega32U4 for the four bits `begin` uses. -/
def Avr.mega32u4 : Avr.Bits := { COM4A0 := 6, PWM4A := 1, PWM4X := 7, CS40 := 0 }

/-! ## Timing of the clock-polling playback -/

namespace Express

/-- With a non-zero rate the wait condition is the plain comparison. -/
lemma stillWaiting_of_ne_zero (e i r2 sampleRate : Nat) (hr : sampleRate ≠ 0) :
    stillWaiting e i r2 sampleRate
      = .ok (decide ((e + 50) % 2 ^ 32 / 100 < (i * 10000 + r2) % 2 ^ 32 / sampleRate)) := by
  simp [stillWaiting, target, udiv, hr]

/-- With a zero rate evaluating the wait condition divides by zero. -/
lemma stillWaiting_zero (e i r2 : Nat) :
    stillWaiting e i r2 0 = .error .divideByZero := by
  simp [stillWaiting, target, udiv]

/-- Lower bound on any elapsed time that ends a wait. -/
lemma end_lower_bound (sampleRate i e : Nat) (hr : 0 < sampleRate)
    (hov : i * 10000 + sampleRate / 2 < 2 ^ 32)
    (hend : stillWaiting e i (sampleRate / 2) sampleRate = .ok false) :
    i * 1000000 < (e + 100) * sampleRate := by
  rw [stillWaiting_of_ne_zero _ _ _ _ (Nat.pos_iff_ne_zero.mp hr)] at hend
  rw [Nat.mod_eq_of_lt hov] at hend
  have hT : (i * 10000 + sampleRate / 2) / sampleRate ≤ (e + 50) % 2 ^ 32 / 100 := by
    simpa using hend
  generalize hTd : (i * 10000 + sampleRate / 2) / sampleRate = T at hT
  have h1 := Nat.div_add_mod (i * 10000 + sampleRate / 2) sampleRate
  have h2 := Nat.mod_lt (i * 10000 + sampleRate / 2) hr
  rw [hTd] at h1
  have h3 : 100 * T ≤ e + 50 := by omega
  have h4 : sampleRate * (100 * T) ≤ sampleRate * (e + 50) := Nat.mul_le_mul_left _ h3
  have h5 : sampleRate ≤ 2 * (sampleRate / 2) + 1 := by omega
  nlinarith

end Express

/-! ## The cycle-counted playback loop -/

namespace Avr

lemma audioDelayLoop_pos (fuel c : Nat) (h1 : 1 ≤ c) (h2 : c ≤ fuel) (h3 : c < 256) :
    audioDelayLoop fuel c = .ok c := by
  induction fuel generalizing c with
  | zero => omega
  | succ fuel ih =>
    unfold audioDelayLoop
    by_cases hc : c = 1
    · subst hc; simp
    · have h4 : (c + 255) % 256 = c - 1 := by omega
      have h5 : c - 1 ≠ 0 := by omega
      simp only [h4, ne_eq, h5, not_false_eq_true, if_true]
      rw [ih (c - 1) (by omega) (by omega) (by omega)]
      simp only [Except.ok.injEq]
      omega

lemma audioDelayLoop_zero : audioDelayLoop 256 0 = .ok 256 := by
  unfold audioDelayLoop
  have h := audioDelayLoop_pos 255 255 (by omega) (by omega) (by omega)
  simp [h]

/-- An 8-bit start value always lets the delay loop finish: a start value of zero
wraps and makes 256 passes, any other value `c` makes `c` passes. -/
lemma audioDelayLoop_total (c : Nat) (hc : c < 256) :
    audioDelayLoop 256 c = .ok (if c = 0 then 256 else c) := by
  by_cases h : c = 0
  · subst h; simpa using audioDelayLoop_zero
  · simp only [h, if_false]
    exact audioDelayLoop_pos 256 c (by omega) (by omega) hc

lemma audioSampleLoop_run (data : Nat → Nat) (iv P : Nat)
    (hP : audioDelayLoop 256 iv = .ok P) (fuel : Nat) :
    ∀ (n z b : Nat) (s : State), 1 ≤ n → n ≤ fuel → n ≤ 65536 → b = n % 65536 →
      audioSampleLoop data iv fuel z b s
        = .ok ({ s with OCR4A := data (z + n - 1) }, sampleEvents data P z n) := by
  induction fuel with
  | zero => intro n z b s h1 h2; omega
  | succ fuel ih =>
    intro n z b s h1 h2 h3 hb
    unfold audioSampleLoop
    simp only [hP]
    by_cases hn : n = 1
    · subst hn
      subst hb
      simp [sampleEvents]
    · have h4 : (b + 65535) % 65536 = (n - 1) % 65536 := by omega
      have h5 : (n - 1) % 65536 ≠ 0 := by omega
      simp only [h4, ne_eq, h5, not_false_eq_true, if_true]
      rw [ih (n - 1) (z + 1) ((n - 1) % 65536) _ (by omega) (by omega) (by omega) rfl]
      obtain ⟨m, rfl⟩ : ∃ m, n = m + 2 := ⟨n - 2, by omega⟩
      have h6 : z + 1 + m = z + (m + 1) := by omega
      simp [sampleEvents, h6]

lemma levelWrites_append (l1 l2 : List Event) :
    levelWrites (l1 ++ l2) = levelWrites l1 ++ levelWrites l2 := by
  induction l1 with
  | nil => rfl
  | cons a l ih =>
    cases a with
    | store r v => cases r <;> simp [levelWrites, ih]
    | pinMode p m => simp [levelWrites, ih]
    | lpm i => simp [levelWrites, ih]
    | delay n => simp [levelWrites, ih]

lemma levelWrites_sampleEvents (data : Nat → Nat) (P n : Nat) :
    ∀ z, levelWrites (sampleEvents data P z n)
      = (List.range n).map (fun j => data (z + j)) := by
  induction n with
  | zero => intro z; rfl
  | succ n ih =>
    intro z
    rw [List.range_succ_eq_map]
    simp [sampleEvents, levelWrites, ih, List.map_map, Function.comp_def, Nat.add_assoc,
      Nat.add_comm 1]

lemma loads_sampleEvents (data : Nat → Nat) (P n : Nat) :
    ∀ z, loads (sampleEvents data P z n) = (List.range n).map (fun j => z + j) := by
  induction n with
  | zero => intro z; rfl
  | succ n ih =>
    intro z
    rw [List.range_succ_eq_map]
    simp [sampleEvents, loads, ih, List.map_map, Function.comp_def, Nat.add_assoc,
      Nat.add_comm 1]

lemma delay_mem_sampleEvents (data : Nat → Nat) (P n p : Nat) :
    ∀ z, Event.delay p ∈ sampleEvents data P z n → p = P := by
  induction n with
  | zero => intro z h; simp [sampleEvents] at h
  | succ n ih =>
    intro z h
    simp only [sampleEvents, List.mem_cons, Event.delay.injEq] at h
    rcases h with h | h | h | h
    · cases h
    · cases h
    · exact h
    · exact ih _ h

lemma levelWrites_entry (hw : Bits) (s : State) :
    levelWrites (entry hw s).2 = if s.started then [] else [127] := by
  cases hs : s.started <;> simp [entry, hs, begin, levelWrites]

lemma delay_not_mem_entry (hw : Bits) (s : State) (p : Nat) :
    Event.delay p ∉ (entry hw s).2 := by
  cases hs : s.started <;> simp [entry, hs, begin]

lemma interval_clamp (F_CPU sampleRate : Nat) :
    interval F_CPU (clampRate sampleRate)
      = .ok (((F_CPU / 4 + clampRate sampleRate / 2) / clampRate sampleRate + 256 - 6)
          % 256) := by
  have h : clampRate sampleRate ≠ 0 := by unfold clampRate; split <;> omega
  simp [interval, udiv, h]

lemma loads_append (l1 l2 : List Event) : loads (l1 ++ l2) = loads l1 ++ loads l2 := by
  induction l1 with
  | nil => rfl
  | cons a l ih => cases a <;> simp [loads, ih]

lemma loads_entry (hw : Bits) (s : State) : loads (entry hw s).2 = [] := by
  cases hs : s.started <;> simp [entry, hs, begin, loads]

lemma delays_append (l1 l2 : List Event) : delays (l1 ++ l2) = delays l1 ++ delays l2 := by
  induction l1 with
  | nil => rfl
  | cons a l ih => cases a <;> simp [delays, ih]

lemma delays_sampleEvents (data : Nat → Nat) (P n : Nat) :
    ∀ z, delays (sampleEvents data P z n) = List.replicate n P := by
  induction n with
  | zero => intro z; rfl
  | succ n ih => intro z; simp [sampleEvents, delays, ih, List.replicate_succ]

lemma delays_entry (hw : Bits) (s : State) : delays (entry hw s).2 = [] := by
  cases hs : s.started <;> simp [entry, hs, begin, delays]

lemma passCount_pos (len : Nat) : 1 ≤ passCount len := by
  unfold passCount
  split <;> omega

lemma passCount_of_le (len : Nat) (h1 : 1 ≤ len) (h2 : len ≤ 65536) : passCount len = len := by
  unfold passCount
  split <;> omega

/-- Closed form of `playSound`: it always returns. -/
lemma playSound_run (hw : Bits) (F_CPU : Nat) (data : Nat → Nat)
    (len sampleRate : Nat) (tenBit : Bool) (s : State) :
    ∃ iv P, interval F_CPU (clampRate sampleRate) = .ok iv ∧ iv < 256 ∧
      audioDelayLoop 256 iv = .ok P ∧
      playSound hw F_CPU data len sampleRate tenBit s
        = .ok ({ (entry hw s).1 with OCR4A := 127 },
            (entry hw s).2 ++ sampleEvents data P 0 (passCount len)
              ++ [.store .OCR4A 127]) := by
  refine ⟨_, _, interval_clamp F_CPU sampleRate, Nat.mod_lt _ (by omega),
    audioDelayLoop_total _ (Nat.mod_lt _ (by omega)), ?_⟩
  unfold playSound
  simp only [interval_clamp]
  have hrun := audioSampleLoop_run data _ _
    (audioDelayLoop_total (((F_CPU / 4 + clampRate sampleRate / 2) / clampRate sampleRate
      + 256 - 6) % 256) (Nat.mod_lt _ (by omega))) 65536 (passCount len) 0 (len % 65536)
    (entry hw s).1 (by unfold passCount; split <;> omega)
    (by unfold passCount; split <;> omega) (by unfold passCount; split <;> omega)
    (by unfold passCount; split <;> omega)
  unfold entry at hrun ⊢
  rw [hrun]

end Avr

/-! ## The clock-polled playback loop -/

namespace Express

lemma a0_levelWrites_append (l1 l2 : List Event) :
    levelWrites (l1 ++ l2) = levelWrites l1 ++ levelWrites l2 := by
  induction l1 with
  | nil => rfl
  | cons a l ih =>
    cases a with
    | analogWriteResolution b => simp [levelWrites, ih]
    | pinMode p m => simp [levelWrites, ih]
    | digitalWrite p v => simp [levelWrites, ih]
    | load i => simp [levelWrites, ih]
    | analogWrite p v => cases p <;> simp [levelWrites, ih]

lemma a0_levelWrites_sampleEvents (data : Nat → Nat) (n : Nat) :
    ∀ i, levelWrites (sampleEvents data i n)
      = (List.range n).map (fun j => data (i + j)) := by
  induction n with
  | zero => intro i; rfl
  | succ n ih =>
    intro i
    rw [List.range_succ_eq_map]
    simp [sampleEvents, levelWrites, ih, List.map_map, Function.comp_def, Nat.add_assoc,
      Nat.add_comm 1]

lemma a0_loads_sampleEvents (data : Nat → Nat) (n : Nat) :
    ∀ i, loads (sampleEvents data i n) = (List.range n).map (fun j => i + j) := by
  induction n with
  | zero => intro i; rfl
  | succ n ih =>
    intro i
    rw [List.range_succ_eq_map]
    simp [sampleEvents, loads, ih, List.map_map, Function.comp_def, Nat.add_assoc,
      Nat.add_comm 1]

/-- A wait that is ended by some reading within the fuel returns. -/
lemma busyWait_returns (micros : Nat → Nat) (startTime i r2 sampleRate : Nat)
    (hr : sampleRate ≠ 0) (fuel : Nat) :
    ∀ k, (∃ j, k ≤ j ∧ j < k + fuel ∧
        stillWaiting (elapsed (micros j) startTime) i r2 sampleRate = .ok false) →
      ∃ k1, busyWait micros startTime i r2 sampleRate fuel k = .ok k1 := by
  induction fuel with
  | zero => rintro k ⟨j, h1, h2, _⟩; omega
  | succ fuel ih =>
    rintro k ⟨j, h1, h2, h3⟩
    unfold busyWait
    by_cases hk : (elapsed (micros k) startTime + 50) % 2 ^ 32 / 100
        < (i * 10000 + r2) % 2 ^ 32 / sampleRate
    · rw [stillWaiting_of_ne_zero _ _ _ _ hr]
      simp only [hk, decide_True]
      apply ih
      refine ⟨j, ?_, by omega, h3⟩
      rcases Nat.lt_or_ge k j with h | h
      · exact h
      · have hjk : j = k := by omega
        subst hjk
        rw [stillWaiting_of_ne_zero _ _ _ _ hr] at h3
        exact absurd hk (decide_eq_false_iff_not.mp (Except.ok.inj h3))
    · rw [stillWaiting_of_ne_zero _ _ _ _ hr]
      simp only [hk, decide_False]
      exact ⟨_, rfl⟩

/-- With a non-zero rate a wait never divides by zero. -/
lemma busyWait_no_div (micros : Nat → Nat) (startTime i r2 sampleRate : Nat)
    (hr : sampleRate ≠ 0) (fuel : Nat) :
    ∀ k, busyWait micros startTime i r2 sampleRate fuel k ≠ .error .divideByZero := by
  induction fuel with
  | zero => intro k; simp [busyWait]
  | succ fuel ih =>
    intro k
    unfold busyWait
    rw [stillWaiting_of_ne_zero _ _ _ _ hr]
    by_cases hk : (elapsed (micros k) startTime + 50) % 2 ^ 32 / 100
        < (i * 10000 + r2) % 2 ^ 32 / sampleRate
    · simp only [hk, decide_True]; exact ih _
    · simp only [hk, decide_False]
      simp

/-- What the `for` loop has done when it returns. -/
lemma sampleFor_ok (micros : Nat → Nat) (data : Nat → Nat)
    (startTime r2 sampleRate fuel : Nat) (todo : Nat) :
    ∀ (i k : Nat) (s : State) (r : Nat × Nat × State × List Event),
      sampleFor micros data startTime r2 sampleRate fuel todo i k s = .ok r →
      r.1 = i + todo ∧ r.2.2.2 = sampleEvents data i todo ∧
      { r.2.2.1 with levelA0 := 127 } = { s with levelA0 := 127 } := by
  induction todo with
  | zero =>
    intro i k s r h
    simp only [sampleFor, Except.ok.injEq] at h
    subst h
    simp [sampleEvents]
  | succ todo ih =>
    intro i k s r h
    unfold sampleFor at h
    split at h
    · cases h
    · rename_i k1 _
      split at h
      · cases h
      · rename_i j k2 s2 l hrec
        simp only [Except.ok.injEq] at h
        subst h
        obtain ⟨h1, h2, h3⟩ := ih _ _ _ _ hrec
        refine ⟨by simp at h1 ⊢; omega, by simp at h2 ⊢; simp [sampleEvents, h2], ?_⟩
        simpa using h3

/-- The `for` loop returns when every wait is ended within the fuel. -/
lemma sampleFor_returns (micros : Nat → Nat) (data : Nat → Nat)
    (startTime r2 sampleRate fuel len : Nat) (hr : sampleRate ≠ 0)
    (hlive : EndsWithin micros startTime r2 sampleRate fuel len) (todo : Nat) :
    ∀ (i k : Nat) (s : State), i + todo ≤ len →
      ∃ r, sampleFor micros data startTime r2 sampleRate fuel todo i k s = .ok r := by
  induction todo with
  | zero => intro i k s _; exact ⟨_, rfl⟩
  | succ todo ih =>
    intro i k s hi
    unfold sampleFor
    obtain ⟨k1, hk1⟩ := busyWait_returns micros startTime i r2 sampleRate hr fuel k
      (hlive i (by omega) k)
    obtain ⟨r, hrr⟩ := ih (i + 1) k1 { s with levelA0 := data i } (by omega)
    simp only [hk1, hrr]
    exact ⟨_, rfl⟩

/-- With a non-zero rate the `for` loop never divides by zero. -/
lemma sampleFor_no_div (micros : Nat → Nat) (data : Nat → Nat)
    (startTime r2 sampleRate fuel : Nat) (hr : sampleRate ≠ 0) (todo : Nat) :
    ∀ (i k : Nat) (s : State),
      sampleFor micros data startTime r2 sampleRate fuel todo i k s
        ≠ .error .divideByZero := by
  induction todo with
  | zero => intro i k s; simp [sampleFor]
  | succ todo ih =>
    intro i k s
    unfold sampleFor
    have hb := busyWait_no_div micros startTime i r2 sampleRate hr fuel k
    split
    · rename_i f hf
      intro h
      simp only [Except.error.injEq] at h
      subst h
      exact hb hf
    · rename_i k1 _
      have hs := ih (i + 1) k1 { s with levelA0 := data i }
      split
      · rename_i f hf
        intro h
        simp only [Except.error.injEq] at h
        subst h
        exact hs hf
      · simp

/-- What `playSound` has done when it returns. -/
lemma playSound_ok (micros : Nat → Nat) (fuel : Nat) (data : Nat → Nat)
    (len sampleRate : Nat) (tenBit : Bool) (s s1 : State) (log : List Event)
    (h : playSound micros fuel data len sampleRate tenBit s = .ok (s1, log)) :
    s1 = { s with levelA0 := 127 } ∧
      log = sampleEvents data 0 len ++ [.analogWrite .A0 127] := by
  unfold playSound at h
  simp only at h
  split at h
  · cases h
  · rename_i i k s2 l hfor
    split at h
    · cases h
    · simp only [Except.ok.injEq, Prod.mk.injEq] at h
      obtain ⟨h1, h2, h3⟩ := sampleFor_ok _ _ _ _ _ _ _ _ _ _ _ hfor
      simp only at h1 h2 h3
      refine ⟨by rw [← h.1]; exact h3, by rw [← h.2, h2]⟩

/-- The call returns when every wait is ended within the fuel. -/
lemma playSound_returns (micros : Nat → Nat) (fuel : Nat) (data : Nat → Nat)
    (len sampleRate : Nat) (tenBit : Bool) (s : State) (hr : sampleRate ≠ 0)
    (hlive : EndsWithin micros (micros 0 % 2 ^ 32) (sampleRate / 2) sampleRate fuel len) :
    ∃ r, playSound micros fuel data len sampleRate tenBit s = .ok r := by
  unfold playSound
  simp only
  obtain ⟨r, hrr⟩ := sampleFor_returns micros data _ _ sampleRate fuel len hr hlive len 0 1 s
    (by omega)
  obtain ⟨h1, -, -⟩ := sampleFor_ok _ _ _ _ _ _ _ _ _ _ _ hrr
  obtain ⟨i, k, s2, l⟩ := r
  simp only [Nat.zero_add] at h1
  subst h1
  rw [hrr]
  obtain ⟨k1, hk1⟩ := busyWait_returns micros (micros 0 % 2 ^ 32) i (sampleRate / 2)
    sampleRate hr fuel k (hlive i (le_refl _) k)
  simp only [hk1]
  exact ⟨_, rfl⟩

end Express

/-! ## Results: timing -/

namespace Express

/-- The reading that lets a wait return is one at which the wait condition is
false. -/
lemma busyWait_ok_end (micros : Nat → Nat) (startTime i r2 sampleRate : Nat) (fuel : Nat) :
    ∀ k k1, busyWait micros startTime i r2 sampleRate fuel k = .ok k1 →
      1 ≤ k1 ∧ stillWaiting (elapsed (micros (k1 - 1)) startTime) i r2 sampleRate
        = .ok false := by
  induction fuel with
  | zero => intro k k1 h; simp [busyWait] at h
  | succ fuel ih =>
    intro k k1 h
    unfold busyWait at h
    split at h
    · cases h
    · exact ih _ _ h
    · rename_i hw
      simp only [Except.ok.injEq] at h
      subst h
      exact ⟨by omega, by simpa using hw⟩

/-- A wait returns on the first reading at which the wait condition is false:
every reading polled before it left the condition true. -/
lemma busyWait_ok_first (micros : Nat → Nat) (startTime i r2 sampleRate : Nat) (fuel : Nat) :
    ∀ k k1, busyWait micros startTime i r2 sampleRate fuel k = .ok k1 →
      k < k1 ∧
      (∀ j, k ≤ j → j < k1 - 1 →
        stillWaiting (elapsed (micros j) startTime) i r2 sampleRate = .ok true) ∧
      stillWaiting (elapsed (micros (k1 - 1)) startTime) i r2 sampleRate = .ok false := by
  induction fuel with
  | zero => intro k k1 h; simp [busyWait] at h
  | succ fuel ih =>
    intro k k1 h
    unfold busyWait at h
    split at h
    · cases h
    · rename_i hw
      obtain ⟨h1, h2, h3⟩ := ih _ _ h
      refine ⟨by omega, ?_, h3⟩
      intro j hj1 hj2
      rcases Nat.eq_or_lt_of_le hj1 with hjk | hjk
      · subst hjk; exact hw
      · exact h2 j (by omega) hj2
    · rename_i hw
      simp only [Except.ok.injEq] at h
      subst h
      refine ⟨by omega, ?_, by simpa using hw⟩
      intro j hj1 hj2
      omega

/-- The polls of the `for` loop: each index it handled was released by a reading
at which its wait condition was false, and the poll counter only grows. -/
lemma sampleFor_waits (micros : Nat → Nat) (data : Nat → Nat)
    (startTime r2 sampleRate fuel : Nat) (todo : Nat) :
    ∀ (i0 k : Nat) (s : State) (r : Nat × Nat × State × List Event),
      sampleFor micros data startTime r2 sampleRate fuel todo i0 k s = .ok r →
      k ≤ r.2.1 ∧
      ∀ i, i0 ≤ i → i < i0 + todo → ∃ p, k ≤ p ∧
        stillWaiting (elapsed (micros p) startTime) i r2 sampleRate = .ok false := by
  induction todo with
  | zero =>
    intro i0 k s r h
    simp only [sampleFor, Except.ok.injEq] at h
    subst h
    exact ⟨le_refl _, fun i h1 h2 => by omega⟩
  | succ todo ih =>
    intro i0 k s r h
    unfold sampleFor at h
    split at h
    · cases h
    · rename_i k1 hb
      split at h
      · cases h
      · rename_i j k2 s2 l hrec
        simp only [Except.ok.injEq] at h
        subst h
        obtain ⟨hk, -, hend⟩ := busyWait_ok_first _ _ _ _ _ _ _ _ hb
        obtain ⟨h1, h2⟩ := ih _ _ _ _ hrec
        simp only at h1 h2 ⊢
        refine ⟨by omega, ?_⟩
        intro i hi1 hi2
        rcases Nat.eq_or_lt_of_le hi1 with hi | hi
        · subst hi
          exact ⟨k1 - 1, by omega, hend⟩
        · obtain ⟨p, hp1, hp2⟩ := h2 i (by omega) (by omega)
          exact ⟨p, by omega, hp2⟩

/-- Every index of a playback that returned, the final idle write included, was
released by a clock reading at which its wait condition was false. -/
lemma playSound_waits (micros : Nat → Nat) (fuel : Nat) (data : Nat → Nat)
    (len sampleRate : Nat) (tenBit : Bool) (s : State) (res : State × List Event)
    (h : playSound micros fuel data len sampleRate tenBit s = .ok res) :
    ∀ i, i ≤ len → ∃ p, 1 ≤ p ∧
      stillWaiting (elapsed (micros p) (micros 0 % 2 ^ 32)) i (sampleRate / 2) sampleRate
        = .ok false := by
  unfold playSound at h
  simp only at h
  split at h
  · cases h
  · rename_i j k s2 l hfor
    split at h
    · cases h
    · rename_i k1 hb
      obtain ⟨h1, -, -⟩ := sampleFor_ok _ _ _ _ _ _ _ _ _ _ _ hfor
      obtain ⟨h2, h3⟩ := sampleFor_waits _ _ _ _ _ _ _ _ _ _ _ hfor
      obtain ⟨h4, -, h5⟩ := busyWait_ok_first _ _ _ _ _ _ _ _ hb
      simp only [Nat.zero_add] at h1 h2 h3
      subst h1
      intro i hi
      rcases Nat.eq_or_lt_of_le hi with hi | hi
      · subst hi
        exact ⟨k1 - 1, by omega, h5⟩
      · exact h3 i (Nat.zero_le _) hi

/-- Bounds on the least elapsed time that ends a wait. -/
lemma least_end_bounds (sampleRate i e : Nat) (hr : 1 ≤ sampleRate)
    (hov : i * 10000 + sampleRate / 2 < 2 ^ 32)
    (hend : stillWaiting e i (sampleRate / 2) sampleRate = .ok false)
    (hleast : ∀ e', e' < e → stillWaiting e' i (sampleRate / 2) sampleRate = .ok true) :
    e * sampleRate ≤ i * 1000000 ∧ i * 1000000 < (e + 100) * sampleRate := by
  refine ⟨?_, end_lower_bound sampleRate i e hr hov hend⟩
  have hne : sampleRate ≠ 0 := by omega
  rcases Nat.eq_zero_or_pos e with he | he
  · subst he; simp
  rw [stillWaiting_of_ne_zero _ _ _ _ hne, Nat.mod_eq_of_lt hov] at hend
  have hT : (i * 10000 + sampleRate / 2) / sampleRate ≤ (e + 50) % 2 ^ 32 / 100 := by
    simpa using hend
  have hprev := hleast (e - 1) (by omega)
  rw [stillWaiting_of_ne_zero _ _ _ _ hne, Nat.mod_eq_of_lt hov] at hprev
  have hP : (e - 1 + 50) % 2 ^ 32 / 100 < (i * 10000 + sampleRate / 2) / sampleRate := by
    simpa using hprev
  have hwrap : e + 50 < 2 ^ 32 := by
    by_contra hge
    have hback := hleast (e + 50 - 2 ^ 32) (by omega)
    rw [stillWaiting_of_ne_zero _ _ _ _ hne, Nat.mod_eq_of_lt hov] at hback
    have hB : (e + 50 - 2 ^ 32 + 50) % 2 ^ 32 / 100
        < (i * 10000 + sampleRate / 2) / sampleRate := by
      simpa using hback
    generalize (i * 10000 + sampleRate / 2) / sampleRate = T at hT hP hB
    omega
  generalize hTd : (i * 10000 + sampleRate / 2) / sampleRate = T at hT hP
  have h1 := Nat.div_mul_le_self (i * 10000 + sampleRate / 2) sampleRate
  rw [hTd] at h1
  have h3 : e + 50 ≤ 100 * T := by omega
  have h4 : (e + 50) * sampleRate ≤ 100 * T * sampleRate := Nat.mul_le_mul_right _ h3
  have h5 : 2 * (sampleRate / 2) ≤ sampleRate := by omega
  nlinarith

/-- When a 32-bit elapsed time can reach the target, there is a least elapsed
time that ends the wait. -/
lemma least_end_exists (sampleRate i : Nat) (hr : 1 ≤ sampleRate)
    (hT : 100 * ((i * 10000 + sampleRate / 2) % 2 ^ 32 / sampleRate) < 2 ^ 32) :
    ∃ e, stillWaiting e i (sampleRate / 2) sampleRate = .ok false ∧
      ∀ e', e' < e → stillWaiting e' i (sampleRate / 2) sampleRate = .ok true := by
  have hne : sampleRate ≠ 0 := by omega
  generalize hTd : (i * 10000 + sampleRate / 2) % 2 ^ 32 / sampleRate = T at hT
  refine ⟨100 * T - 50, ?_, ?_⟩
  · rw [stillWaiting_of_ne_zero _ _ _ _ hne, hTd]
    simp only [Except.ok.injEq, decide_eq_false_iff_not]
    have h1 : (100 * T - 50 + 50) % 2 ^ 32 = 100 * T - 50 + 50 := Nat.mod_eq_of_lt (by omega)
    rw [h1]
    omega
  · intro e' he'
    rw [stillWaiting_of_ne_zero _ _ _ _ hne, hTd]
    simp only [Except.ok.injEq, decide_eq_true_eq]
    have h1 : (e' + 50) % 2 ^ 32 = e' + 50 := Nat.mod_eq_of_lt (by omega)
    rw [h1]
    omega

/-- At 1 Hz no 32-bit elapsed time ends the wait for index 4295. -/
lemma stillWaiting_forever (e : Nat) : stillWaiting e 4295 (1 / 2) 1 = .ok true := by
  rw [stillWaiting_of_ne_zero _ _ _ _ (by decide)]
  simp only [Except.ok.injEq, decide_eq_true_eq]
  have h1 : (4295 * 10000 + 1 / 2) % 2 ^ 32 / 1 = 42950000 := by decide
  rw [h1]
  have h2 : (e + 50) % 2 ^ 32 < 2 ^ 32 := Nat.mod_lt _ (by norm_num)
  omega

end Express

/-- C1, as the code has it: on the clock-polling variant, for every sample rate
above zero and every index `i` whose target computation `i * 10000 + sampleRate / 2`
does not overflow 32 bits, every elapsed time `e` at which the wait for index `i`
ends satisfies `(e + 100) * sampleRate > i * 1000000`: sample `i` (and the final
idle write, `i = len`) is written less than 100 microseconds before its target
time.  The same holds for the clock reading on which `busyWait` returns. -/
theorem C1_write_less_than_100us_early (sampleRate i : Nat) (hr : 0 < sampleRate)
    (hov : i * 10000 + sampleRate / 2 < 2 ^ 32) :
    (∀ e, Express.stillWaiting e i (sampleRate / 2) sampleRate = .ok false →
        i * 1000000 < (e + 100) * sampleRate) ∧
    (∀ (micros : Nat → Nat) (startTime fuel k k1 : Nat),
        Express.busyWait micros startTime i (sampleRate / 2) sampleRate fuel k = .ok k1 →
        1 ≤ k1 ∧
        i * 1000000 < (Express.elapsed (micros (k1 - 1)) startTime + 100) * sampleRate) := by
  refine ⟨fun e he => Express.end_lower_bound sampleRate i e hr hov he, ?_⟩
  intro micros startTime fuel k k1 h
  obtain ⟨h1, h2⟩ := Express.busyWait_ok_end micros startTime i _ sampleRate fuel k k1 h
  exact ⟨h1, Express.end_lower_bound sampleRate i _ hr hov h2⟩

/-- C1 at 8000 Hz, index 5 (the idle write after five samples), elapsed 550. -/
theorem C1_write_less_than_100us_early_witness :
    Express.stillWaiting 550 5 (8000 / 2) 8000 = .ok false ∧
      5 * 1000000 < (550 + 100) * 8000 :=
  ⟨by decide,
   (C1_write_less_than_100us_early 8000 5 (by decide) (by decide)).1 550 (by decide)⟩

/-- C1 as stated fails: at 8000 Hz the wait for sample 1 ends at 50 microseconds,
before its target of 125, and the wait before the idle write after five samples
ends at 550 microseconds, before 625.  When `i * 10000` overflows 32 bits even the
100 microsecond margin is lost (rate 1 Hz, index 429497). -/
theorem C1_counterexample :
    (Express.stillWaiting 50 1 (8000 / 2) 8000 = .ok false ∧ ¬ (1 * 1000000 ≤ 50 * 8000)) ∧
    (Express.stillWaiting 550 5 (8000 / 2) 8000 = .ok false ∧ 550 < 625) ∧
    (Express.stillWaiting 270350 429497 (1 / 2) 1 = .ok false ∧
      ¬ (429497 * 1000000 < (270350 + 100) * 1)) := by
  decide

/-- C10, as the code has it: on the clock-polling variant, for every sample rate
of at least 1 and every index `i` with `i * 10000 + sampleRate / 2 < 2^32` whose
target `T = (i * 10000 + sampleRate / 2) / sampleRate` a 32-bit elapsed time can
reach (`100 * T < 2^32`), there is a least elapsed time `e` at which the wait for
index `i` ends, and `e * sampleRate ≤ i * 1000000 < (e + 100) * sampleRate`, so the
timing error does not grow with the index.  The busy-wait of `playSound` for index
`i` returns exactly on the first reading at which the wait condition is false, it
does return when such a reading comes within the poll budget, the elapsed time of
that reading is at least `e`, and every index of a playback that returned was
released by such a reading. -/
theorem C10_no_accumulated_drift (sampleRate i : Nat) (hr : 1 ≤ sampleRate)
    (hov : i * 10000 + sampleRate / 2 < 2 ^ 32)
    (hT : 100 * ((i * 10000 + sampleRate / 2) / sampleRate) < 2 ^ 32) :
    ∃ e, Express.stillWaiting e i (sampleRate / 2) sampleRate = .ok false ∧
      (∀ e', e' < e → Express.stillWaiting e' i (sampleRate / 2) sampleRate = .ok true) ∧
      e * sampleRate ≤ i * 1000000 ∧ i * 1000000 < (e + 100) * sampleRate ∧
      (∀ (micros : Nat → Nat) (startTime fuel k k1 : Nat),
        Express.busyWait micros startTime i (sampleRate / 2) sampleRate fuel k = .ok k1 →
        k < k1 ∧
        (∀ j, k ≤ j → j < k1 - 1 →
          Express.stillWaiting (Express.elapsed (micros j) startTime) i (sampleRate / 2) sampleRate
            = .ok true) ∧
        Express.stillWaiting (Express.elapsed (micros (k1 - 1)) startTime) i (sampleRate / 2) sampleRate
          = .ok false ∧
        e ≤ Express.elapsed (micros (k1 - 1)) startTime ∧
        i * 1000000 < (Express.elapsed (micros (k1 - 1)) startTime + 100) * sampleRate) ∧
      (∀ (micros : Nat → Nat) (startTime fuel k j : Nat), k ≤ j → j < k + fuel →
        Express.stillWaiting (Express.elapsed (micros j) startTime) i (sampleRate / 2) sampleRate
          = .ok false →
        ∃ k1, Express.busyWait micros startTime i (sampleRate / 2) sampleRate fuel k = .ok k1 ∧
          k1 ≤ j + 1) ∧
      (∀ (micros : Nat → Nat) (fuel : Nat) (data : Nat → Nat) (len : Nat) (tenBit : Bool)
          (s : Express.State) (res : Express.State × List Express.Event),
        i ≤ len → Express.playSound micros fuel data len sampleRate tenBit s = .ok res →
        ∃ p, 1 ≤ p ∧
          Express.stillWaiting (Express.elapsed (micros p) (micros 0 % 2 ^ 32)) i
            (sampleRate / 2) sampleRate = .ok false ∧
          e ≤ Express.elapsed (micros p) (micros 0 % 2 ^ 32) ∧
          i * 1000000 < (Express.elapsed (micros p) (micros 0 % 2 ^ 32) + 100) * sampleRate) := by
  have hne : sampleRate ≠ 0 := by omega
  have hT2 : 100 * ((i * 10000 + sampleRate / 2) % 2 ^ 32 / sampleRate) < 2 ^ 32 := by
    rw [Nat.mod_eq_of_lt hov]; exact hT
  obtain ⟨e, hend, hleast⟩ := Express.least_end_exists sampleRate i hr hT2
  obtain ⟨hb1, hb2⟩ := Express.least_end_bounds sampleRate i e hr hov hend hleast
  have hge : ∀ x, Express.stillWaiting x i (sampleRate / 2) sampleRate = .ok false → e ≤ x := by
    intro x hx
    by_contra hlt
    have := hleast x (by omega)
    rw [hx] at this
    cases this
  refine ⟨e, hend, hleast, hb1, hb2, ?_, ?_, ?_⟩
  · intro micros startTime fuel k k1 h
    obtain ⟨h1, h2, h3⟩ := Express.busyWait_ok_first micros startTime i _ sampleRate fuel k k1 h
    exact ⟨h1, h2, h3, hge _ h3, Express.end_lower_bound sampleRate i _ hr hov h3⟩
  · intro micros startTime fuel k j hj1 hj2 hj3
    obtain ⟨k1, hk1⟩ := Express.busyWait_returns micros startTime i (sampleRate / 2)
      sampleRate hne fuel k ⟨j, hj1, hj2, hj3⟩
    refine ⟨k1, hk1, ?_⟩
    obtain ⟨-, h2, -⟩ := Express.busyWait_ok_first micros startTime i _ sampleRate fuel k k1 hk1
    by_contra hlt
    have := h2 j hj1 (by omega)
    rw [hj3] at this
    cases this
  · intro micros fuel data len tenBit s res hi h
    obtain ⟨p, hp1, hp2⟩ := Express.playSound_waits micros fuel data len sampleRate tenBit s
      res h i hi
    exact ⟨p, hp1, hp2, hge _ hp2, Express.end_lower_bound sampleRate i _ hr hov hp2⟩

/-- C10 at 8000 Hz, index 1: the least elapsed time ending the wait is 50. -/
theorem C10_no_accumulated_drift_witness :
    ∃ e, Express.stillWaiting e 1 (8000 / 2) 8000 = .ok false ∧
      (∀ e', e' < e → Express.stillWaiting e' 1 (8000 / 2) 8000 = .ok true) ∧
      e * 8000 ≤ 1 * 1000000 ∧ 1 * 1000000 < (e + 100) * 8000 ∧
      (∀ (micros : Nat → Nat) (startTime fuel k k1 : Nat),
        Express.busyWait micros startTime 1 (8000 / 2) 8000 fuel k = .ok k1 →
        k < k1 ∧
        (∀ j, k ≤ j → j < k1 - 1 →
          Express.stillWaiting (Express.elapsed (micros j) startTime) 1 (8000 / 2) 8000
            = .ok true) ∧
        Express.stillWaiting (Express.elapsed (micros (k1 - 1)) startTime) 1 (8000 / 2) 8000
          = .ok false ∧
        e ≤ Express.elapsed (micros (k1 - 1)) startTime ∧
        1 * 1000000 < (Express.elapsed (micros (k1 - 1)) startTime + 100) * 8000) ∧
      (∀ (micros : Nat → Nat) (startTime fuel k j : Nat), k ≤ j → j < k + fuel →
        Express.stillWaiting (Express.elapsed (micros j) startTime) 1 (8000 / 2) 8000
          = .ok false →
        ∃ k1, Express.busyWait micros startTime 1 (8000 / 2) 8000 fuel k = .ok k1 ∧
          k1 ≤ j + 1) ∧
      (∀ (micros : Nat → Nat) (fuel : Nat) (data : Nat → Nat) (len : Nat) (tenBit : Bool)
          (s : Express.State) (res : Express.State × List Express.Event),
        1 ≤ len → Express.playSound micros fuel data len 8000 tenBit s = .ok res →
        ∃ p, 1 ≤ p ∧
          Express.stillWaiting (Express.elapsed (micros p) (micros 0 % 2 ^ 32)) 1
            (8000 / 2) 8000 = .ok false ∧
          e ≤ Express.elapsed (micros p) (micros 0 % 2 ^ 32) ∧
          1 * 1000000 < (Express.elapsed (micros p) (micros 0 % 2 ^ 32) + 100) * 8000) :=
  C10_no_accumulated_drift 8000 1 (by decide) (by decide) (by decide)

/-- C10 as stated fails at 1 Hz, index 4295, where `i * 10000 + sampleRate / 2` does
not overflow: the target 42950000 is above every value of the 32-bit
`(elapsed + 50) / 100`, so no elapsed time ends the wait, no least one exists, and
the busy-wait of `playSound` for that index never returns, whatever the clock, so
a playback of 4295 samples at 1 Hz never returns. -/
theorem C10_counterexample :
    4295 * 10000 + 1 / 2 < 2 ^ 32 ∧
    (¬ ∃ e, Express.stillWaiting e 4295 (1 / 2) 1 = .ok false) ∧
    (¬ ∃ (micros : Nat → Nat) (startTime fuel k k1 : Nat),
        Express.busyWait micros startTime 4295 (1 / 2) 1 fuel k = .ok k1) ∧
    (¬ ∃ (micros : Nat → Nat) (fuel : Nat) (data : Nat → Nat) (tenBit : Bool)
        (s : Express.State) (res : Express.State × List Express.Event),
        Express.playSound micros fuel data 4295 1 tenBit s = .ok res) ∧
    Express.busyWait msClock 0 4295 (1 / 2) 1 3 1 = .error .outOfFuel := by
  refine ⟨by decide, ?_, ?_, ?_, by decide⟩
  rotate_left 2
  · rintro ⟨micros, fuel, data, tenBit, s, res, h⟩
    obtain ⟨p, -, hp⟩ := Express.playSound_waits micros fuel data 4295 1 tenBit s res h
      4295 (le_refl _)
    rw [Express.stillWaiting_forever] at hp
    cases hp
  · rintro ⟨e, he⟩
    rw [Express.stillWaiting_forever e] at he
    cases he
  · rintro ⟨micros, startTime, fuel, k, k1, h⟩
    obtain ⟨-, h2⟩ := Express.busyWait_ok_end micros startTime 4295 _ 1 fuel k k1 h
    rw [Express.stillWaiting_forever] at h2
    cases h2

/-- C9: on the timer variant with `F_CPU = 8000000`, for every 16-bit requested
rate, with `r = max sampleRate 7620` the clamped rate and
`q = (F_CPU / 4 + r / 2) / r` (the integer nearest to `F_CPU / (4 * r)`), the stored
8-bit `interval` is `(q - 6) mod 256`, the delay loop started from it makes exactly
`q - 6` passes, and `25 ≤ q - 6 ≤ 256`.  Every playback returns with the log made
of the entry events, then for each fetched sample its `lpm`, its store to `OCR4A`
and one delay of exactly `q - 6` passes, then the idle store: there is one delay
per sample, at least one, `len` of them when `1 ≤ len ≤ 65536`, each of `q - 6`
passes.  A requested rate of 1000 Hz plays exactly as 7620 Hz does. -/
theorem C9_delay_passes (sampleRate : Nat) (h16 : sampleRate < 65536) :
    ∃ r q, r = max sampleRate 7620 ∧ Avr.clampRate sampleRate = r ∧
      q = (8000000 / 4 + r / 2) / r ∧
      2 * (q * r - 2000000) ≤ r ∧ 2 * (2000000 - q * r) ≤ r ∧
      Avr.interval 8000000 r = .ok ((q - 6) % 256) ∧
      Avr.audioDelayLoop 256 ((q - 6) % 256) = .ok (q - 6) ∧
      25 ≤ q - 6 ∧ q - 6 ≤ 256 ∧
      (∀ (hw : Avr.Bits) (data : Nat → Nat) (len : Nat) (tenBit : Bool) (s : Avr.State),
        ∃ s1 log, Avr.playSound hw 8000000 data len sampleRate tenBit s = .ok (s1, log) ∧
          log = (Avr.entry hw s).2 ++ Avr.sampleEvents data (q - 6) 0 (Avr.passCount len)
                  ++ [.store .OCR4A 127] ∧
          Avr.delays log = List.replicate (Avr.passCount len) (q - 6) ∧
          (Avr.delays log).length = (Avr.loads log).length ∧
          1 ≤ (Avr.delays log).length ∧
          (1 ≤ len → len ≤ 65536 → (Avr.delays log).length = len) ∧
          ∀ p, Avr.Event.delay p ∈ log → p = q - 6) ∧
      (∀ (hw : Avr.Bits) (data : Nat → Nat) (len : Nat) (tenBit : Bool) (s : Avr.State),
        Avr.playSound hw 8000000 data len 1000 tenBit s
          = Avr.playSound hw 8000000 data len 7620 tenBit s) := by
  have hclamp : Avr.clampRate sampleRate = max sampleRate 7620 := by
    unfold Avr.clampRate
    split <;> omega
  have hr1 : 7620 ≤ max sampleRate 7620 := le_max_right _ _
  have hr2 : max sampleRate 7620 < 65536 := max_lt h16 (by omega)
  generalize max sampleRate 7620 = r at hclamp hr1 hr2
  have hrpos : 0 < r := by omega
  have hq1 : 31 ≤ (8000000 / 4 + r / 2) / r := by
    rw [Nat.le_div_iff_mul_le hrpos]; omega
  have hq2 : (8000000 / 4 + r / 2) / r < 263 := by
    rw [Nat.div_lt_iff_lt_mul hrpos]; omega
  have hm1 := Nat.div_mul_le_self (8000000 / 4 + r / 2) r
  have hm2 := @Nat.lt_div_mul_add (8000000 / 4 + r / 2) r hrpos
  generalize hq : (8000000 / 4 + r / 2) / r = q at hq1 hq2 hm1 hm2
  have hiv : Avr.interval 8000000 r = .ok ((q - 6) % 256) := by
    have h := Avr.interval_clamp 8000000 sampleRate
    rw [hclamp, hq] at h
    rw [h]
    congr 1
    omega
  have hloop : Avr.audioDelayLoop 256 ((q - 6) % 256) = .ok (q - 6) := by
    rw [Avr.audioDelayLoop_total _ (Nat.mod_lt _ (by omega))]
    congr 1
    split <;> omega
  refine ⟨r, q, rfl, hclamp, hq.symm, by omega, by omega, hiv, hloop, by omega, by omega,
    ?_, ?_⟩
  · intro hw data len tenBit s
    obtain ⟨iv, P, h1, -, h3, h4⟩ := Avr.playSound_run hw 8000000 data len sampleRate tenBit s
    rw [hclamp, hiv] at h1
    cases h1
    rw [hloop] at h3
    cases h3
    have hd : Avr.delays ((Avr.entry hw s).2
        ++ Avr.sampleEvents data (q - 6) 0 (Avr.passCount len) ++ [.store .OCR4A 127])
        = List.replicate (Avr.passCount len) (q - 6) := by
      rw [Avr.delays_append, Avr.delays_append, Avr.delays_entry, Avr.delays_sampleEvents]
      simp [Avr.delays]
    have hl : Avr.loads ((Avr.entry hw s).2
        ++ Avr.sampleEvents data (q - 6) 0 (Avr.passCount len) ++ [.store .OCR4A 127])
        = (List.range (Avr.passCount len)).map (fun j => 0 + j) := by
      rw [Avr.loads_append, Avr.loads_append, Avr.loads_entry, Avr.loads_sampleEvents]
      simp [Avr.loads]
    refine ⟨_, _, h4, rfl, hd, ?_, ?_, ?_, ?_⟩
    · rw [hd, hl]
      simp
    · rw [hd, List.length_replicate]
      exact Avr.passCount_pos len
    · intro hl1 hl2
      rw [hd, List.length_replicate]
      exact Avr.passCount_of_le len hl1 hl2
    · intro p hp
      simp only [List.mem_append, List.mem_singleton] at hp
      rcases hp with (hp | hp) | hp
      · exact absurd hp (Avr.delay_not_mem_entry hw s p)
      · exact Avr.delay_mem_sampleEvents data _ _ p 0 hp
      · cases hp
  · intro hw data len tenBit s
    have h : Avr.clampRate 1000 = Avr.clampRate 7620 := by decide
    unfold Avr.playSound
    simp only [h]

/-- C9 at the requested rate 1000 Hz: the clamped rate is 7620, `q = 262`, and
the delay loop makes 256 passes from a stored interval of 0. -/
theorem C9_delay_passes_witness :
    ∃ r q, r = max 1000 7620 ∧ Avr.clampRate 1000 = r ∧
      q = (8000000 / 4 + r / 2) / r ∧
      2 * (q * r - 2000000) ≤ r ∧ 2 * (2000000 - q * r) ≤ r ∧
      Avr.interval 8000000 r = .ok ((q - 6) % 256) ∧
      Avr.audioDelayLoop 256 ((q - 6) % 256) = .ok (q - 6) ∧
      25 ≤ q - 6 ∧ q - 6 ≤ 256 ∧
      (∀ (hw : Avr.Bits) (data : Nat → Nat) (len : Nat) (tenBit : Bool) (s : Avr.State),
        ∃ s1 log, Avr.playSound hw 8000000 data len 1000 tenBit s = .ok (s1, log) ∧
          log = (Avr.entry hw s).2 ++ Avr.sampleEvents data (q - 6) 0 (Avr.passCount len)
                  ++ [.store .OCR4A 127] ∧
          Avr.delays log = List.replicate (Avr.passCount len) (q - 6) ∧
          (Avr.delays log).length = (Avr.loads log).length ∧
          1 ≤ (Avr.delays log).length ∧
          (1 ≤ len → len ≤ 65536 → (Avr.delays log).length = len) ∧
          ∀ p, Avr.Event.delay p ∈ log → p = q - 6) ∧
      (∀ (hw : Avr.Bits) (data : Nat → Nat) (len : Nat) (tenBit : Bool) (s : Avr.State),
        Avr.playSound hw 8000000 data len 1000 tenBit s
          = Avr.playSound hw 8000000 data len 7620 tenBit s) :=
  C9_delay_passes 1000 (by decide)

/-! ## Results: what is written, and in which state -/

lemma elapsed_msClock (j : Nat) :
    Express.elapsed (msClock j) (msClock 0 % 2 ^ 32) = 1000 * j % 2 ^ 32 := by
  simp [Express.elapsed, msClock]

/-- An elapsed time of at least 600 that does not wrap ends every wait whose
target is at most 6. -/
lemma ends_of_ge_600 (x T : Nat) (hT : T ≤ 6) (h1 : 600 ≤ x) (h2 : x + 50 < 2 ^ 32) :
    ¬ ((x + 50) % 2 ^ 32 / 100 < T) := by
  rw [Nat.mod_eq_of_lt h2]
  omega

/-- Read every millisecond, each wait of a five-sample playback at 8000 Hz is
over within three polls. -/
lemma msClock_endsWithin :
    Express.EndsWithin msClock (msClock 0 % 2 ^ 32) (8000 / 2) 8000 3 5 := by
  intro i hi k
  have hlt : i * 10000 + 8000 / 2 < 2 ^ 32 := by omega
  have hT : (i * 10000 + 8000 / 2) % 2 ^ 32 / 8000 ≤ 6 := by
    rw [Nat.mod_eq_of_lt hlt]; omega
  have hnext : 1000 * (k + 2) % 2 ^ 32 = (1000 * (k + 1) % 2 ^ 32 + 1000) % 2 ^ 32 := by
    rw [show 1000 * (k + 2) = 1000 * (k + 1) + 1000 by ring, Nat.add_mod,
      show 1000 % 2 ^ 32 = 1000 by norm_num]
  have hx : 1000 * (k + 1) % 2 ^ 32 < 2 ^ 32 := Nat.mod_lt _ (by norm_num)
  by_cases h : 600 ≤ 1000 * (k + 1) % 2 ^ 32 ∧ 1000 * (k + 1) % 2 ^ 32 + 50 < 2 ^ 32
  · refine ⟨k + 1, by omega, by omega, ?_⟩
    rw [Express.stillWaiting_of_ne_zero _ _ _ _ (by decide), elapsed_msClock]
    simp only [Except.ok.injEq, decide_eq_false_iff_not]
    exact ends_of_ge_600 _ _ hT h.1 h.2
  · refine ⟨k + 2, by omega, by omega, ?_⟩
    rw [Express.stillWaiting_of_ne_zero _ _ _ _ (by decide), elapsed_msClock, hnext]
    simp only [Except.ok.injEq, decide_eq_false_iff_not]
    generalize 1000 * (k + 1) % 2 ^ 32 = x at hx h ⊢
    rcases Nat.lt_or_ge x 600 with h2 | h2
    · have h3 : (x + 1000) % 2 ^ 32 = x + 1000 := Nat.mod_eq_of_lt (by omega)
      rw [h3]
      exact ends_of_ge_600 _ _ hT (by omega) (by omega)
    · have h5 : 2 ^ 32 ≤ x + 50 := by omega
      have h3 : (x + 1000) % 2 ^ 32 = x + 1000 - 2 ^ 32 := by omega
      rw [h3]
      exact ends_of_ge_600 _ _ hT (by omega) (by omega)

/-- C7: on both variants the last value `playSound` writes to the output level is
127 and the output level is 127 when it returns, from every starting state and
for every buffer, length and rate.  The timer variant always returns; the
clock-polling variant is taken at any call that returns. -/
theorem C7_idle_level_on_return (hw : Avr.Bits) (F_CPU : Nat) (dataA : Nat → Nat)
    (lenA rateA : Nat) (tenBitA : Bool) (sA : Avr.State)
    (micros : Nat → Nat) (fuel : Nat) (dataE : Nat → Nat) (lenE rateE : Nat)
    (tenBitE : Bool) (sE sE1 : Express.State) (logE : List Express.Event)
    (hret : Express.playSound micros fuel dataE lenE rateE tenBitE sE = .ok (sE1, logE)) :
    (∃ sA1 logA, Avr.playSound hw F_CPU dataA lenA rateA tenBitA sA = .ok (sA1, logA) ∧
        sA1.OCR4A = 127 ∧ (Avr.levelWrites logA).getLast? = some 127) ∧
    (sE1.levelA0 = 127 ∧ (Express.levelWrites logE).getLast? = some 127) := by
  constructor
  · obtain ⟨iv, P, -, -, -, h⟩ := Avr.playSound_run hw F_CPU dataA lenA rateA tenBitA sA
    refine ⟨_, _, h, rfl, ?_⟩
    simp [Avr.levelWrites_append, Avr.levelWrites]
  · obtain ⟨h1, h2⟩ := Express.playSound_ok _ _ _ _ _ _ _ _ _ hret
    subst h1 h2
    refine ⟨rfl, ?_⟩
    simp [Express.a0_levelWrites_append, Express.levelWrites]

/-- C7 on two five-sample playbacks at 8000 Hz from inactive drivers. -/
theorem C7_idle_level_on_return_witness :
    (∃ sA1 logA, Avr.playSound Avr.mega32u4 8000000 fiveSamples 5 8000 false Avr.inactive
          = .ok (sA1, logA) ∧
        sA1.OCR4A = 127 ∧ (Avr.levelWrites logA).getLast? = some 127) ∧
    (({ Express.inactive with levelA0 := 127 } : Express.State).levelA0 = 127 ∧
      (Express.levelWrites
        [.load 0, .analogWrite .A0 0, .load 1, .analogWrite .A0 64, .load 2,
         .analogWrite .A0 128, .load 3, .analogWrite .A0 192, .load 4,
         .analogWrite .A0 255, .analogWrite .A0 127]).getLast? = some 127) :=
  C7_idle_level_on_return Avr.mega32u4 8000000 fiveSamples 5 8000 false Avr.inactive
    msClock 3 fiveSamples 5 8000 false Express.inactive _ _ (by decide)

namespace Avr

/-- What a playback of `n` passes fetches and stores. -/
lemma playSound_passes (hw : Bits) (F_CPU : Nat) (data : Nat → Nat)
    (len sampleRate : Nat) (tenBit : Bool) (s : State) (n : Nat)
    (hn : passCount len = n) :
    ∃ s1 log, playSound hw F_CPU data len sampleRate tenBit s = .ok (s1, log) ∧
      s1.OCR4A = 127 ∧
      loads log = List.range n ∧
      levelWrites log
        = (if s.started then [] else [127]) ++ (List.range n).map data ++ [127] := by
  obtain ⟨iv, P, -, -, -, h⟩ := playSound_run hw F_CPU data len sampleRate tenBit s
  subst hn
  refine ⟨_, _, h, rfl, ?_, ?_⟩
  · rw [loads_append, loads_append, loads_entry, loads_sampleEvents]
    simp [loads]
  · rw [levelWrites_append, levelWrites_append, levelWrites_entry,
      levelWrites_sampleEvents]
    simp [levelWrites]

end Avr

namespace Express

/-- With nothing to play and a non-zero rate the call returns at once, having
written only the idle level. -/
lemma playSound_empty (micros : Nat → Nat) (fuel : Nat) (data : Nat → Nat)
    (sampleRate : Nat) (tenBit : Bool) (s : State) (hr : sampleRate ≠ 0) :
    playSound micros (fuel + 1) data 0 sampleRate tenBit s
      = .ok ({ s with levelA0 := 127 }, [.analogWrite .A0 127]) := by
  have hT : (0 * 10000 + sampleRate / 2) % 2 ^ 32 / sampleRate = 0 := by
    apply Nat.div_eq_of_lt
    exact lt_of_le_of_lt (Nat.mod_le _ _) (by omega)
  unfold playSound
  simp only [sampleFor]
  unfold busyWait
  rw [stillWaiting_of_ne_zero _ _ _ _ hr, hT]
  simp

end Express

/-- C2, as the code has it.  On the timer variant, for every buffer length `len`
with `1 ≤ len ≤ 65536` and every rate, `playSound` returns and the values it stores
to `OCR4A` are `data[0]`, ..., `data[len-1]` in order followed by one idle write of
127, preceded by the idle write of `begin()` when the driver was inactive.  On the
clock-polling variant, for every length and every non-zero rate, whenever each
wait is ended by a clock reading within the poll budget, `playSound` returns and
the values written to `A0` are `data[0]`, ..., `data[len-1]` followed by 127. -/
theorem C2_written_sequence (hw : Avr.Bits) (F_CPU : Nat) (dataA : Nat → Nat)
    (lenA rateA : Nat) (tenBitA : Bool) (sA : Avr.State)
    (micros : Nat → Nat) (fuel : Nat) (dataE : Nat → Nat) (lenE rateE : Nat)
    (tenBitE : Bool) (sE : Express.State)
    (hlen1 : 1 ≤ lenA) (hlen2 : lenA ≤ 65536) (hrate : rateE ≠ 0)
    (hlive : Express.EndsWithin micros (micros 0 % 2 ^ 32) (rateE / 2) rateE fuel lenE) :
    (∃ sA1 logA, Avr.playSound hw F_CPU dataA lenA rateA tenBitA sA = .ok (sA1, logA) ∧
        Avr.levelWrites logA
          = (if sA.started then [] else [127]) ++ (List.range lenA).map dataA ++ [127]) ∧
    (∃ sE1 logE,
        Express.playSound micros fuel dataE lenE rateE tenBitE sE = .ok (sE1, logE) ∧
        Express.levelWrites logE = (List.range lenE).map dataE ++ [127]) := by
  constructor
  · have hn : Avr.passCount lenA = lenA := by
      unfold Avr.passCount
      split <;> omega
    obtain ⟨sA1, logA, h1, -, -, h2⟩ :=
      Avr.playSound_passes hw F_CPU dataA lenA rateA tenBitA sA lenA hn
    exact ⟨sA1, logA, h1, h2⟩
  · obtain ⟨⟨sE1, logE⟩, hret⟩ :=
      Express.playSound_returns micros fuel dataE lenE rateE tenBitE sE hrate hlive
    obtain ⟨-, h2⟩ := Express.playSound_ok _ _ _ _ _ _ _ _ _ hret
    refine ⟨sE1, logE, hret, ?_⟩
    rw [h2, Express.a0_levelWrites_append, Express.a0_levelWrites_sampleEvents]
    simp [Express.levelWrites]

/-- C2 on five-sample playbacks, the timer variant starting inactive. -/
theorem C2_written_sequence_witness :
    (∃ sA1 logA, Avr.playSound Avr.mega32u4 8000000 fiveSamples 5 8000 false Avr.inactive
          = .ok (sA1, logA) ∧
        Avr.levelWrites logA
          = (if Avr.inactive.started then [] else [127])
              ++ (List.range 5).map fiveSamples ++ [127]) ∧
    (∃ sE1 logE,
        Express.playSound msClock 3 fiveSamples 5 8000 false Express.inactive
          = .ok (sE1, logE) ∧
        Express.levelWrites logE = (List.range 5).map fiveSamples ++ [127]) :=
  C2_written_sequence Avr.mega32u4 8000000 fiveSamples 5 8000 false Avr.inactive
    msClock 3 fiveSamples 5 8000 false Express.inactive (by decide) (by decide) (by decide)
    msClock_endsWithin

/-- C2 as stated fails on the timer variant: with `len = 65537` an active driver
makes one sample write, and an inactive driver starts the sequence with the idle
write of `begin()`. -/
theorem C2_counterexample :
    (Avr.playSound Avr.mega32u4 8000000 fiveSamples 65537 8000 false
        { Avr.inactive with started := true }).map (fun r => Avr.levelWrites r.2)
      = .ok [0, 127] ∧
    (Avr.playSound Avr.mega32u4 8000000 fiveSamples 5 8000 false
        Avr.inactive).map (fun r => Avr.levelWrites r.2)
      = .ok [127, 0, 64, 128, 192, 255, 127] := by
  decide

/-- C3 on the code: with `len = 0` the timer variant makes 65536 passes of the
sample loop, fetching the 65536 bytes that follow `data` and storing each to
`OCR4A` before the idle write, whereas the clock-polling variant reads nothing and
writes only 127. -/
theorem C3_empty_buffer (hw : Avr.Bits) (F_CPU : Nat) (dataA : Nat → Nat)
    (rateA : Nat) (tenBitA : Bool) (sA : Avr.State)
    (micros : Nat → Nat) (fuel : Nat) (dataE : Nat → Nat) (rateE : Nat)
    (tenBitE : Bool) (sE : Express.State) :
    (∃ sA1 logA, Avr.playSound hw F_CPU dataA 0 rateA tenBitA sA = .ok (sA1, logA) ∧
        Avr.loads logA = List.range 65536 ∧
        Avr.levelWrites logA
          = (if sA.started then [] else [127]) ++ (List.range 65536).map dataA ++ [127]) ∧
    Express.playSound micros (fuel + 1) dataE 0 (rateE + 1) tenBitE sE
      = .ok ({ sE with levelA0 := 127 }, [.analogWrite .A0 127]) := by
  constructor
  · obtain ⟨sA1, logA, h1, -, h2, h3⟩ :=
      Avr.playSound_passes hw F_CPU dataA 0 rateA tenBitA sA 65536 (by decide)
    exact ⟨sA1, logA, h1, h2, h3⟩
  · exact Express.playSound_empty micros fuel dataE (rateE + 1) tenBitE sE (by omega)

/-- The PWM configuration `begin()` writes to `TCCR4A` is never zero. -/
lemma Avr.pwmConfig_ne_zero (hw : Avr.Bits) : Avr._BV hw.COM4A0 ||| Avr._BV hw.PWM4A ≠ 0 := by
  intro h
  have h1 : (Avr._BV hw.COM4A0 ||| Avr._BV hw.PWM4A).testBit hw.COM4A0 = true := by
    rw [Nat.testBit_or]
    simp [Avr._BV, Nat.one_shiftLeft, Nat.testBit_two_pow_self]
  rw [h] at h1
  simp at h1

/-- C4 on the code: on the timer variant `set(v)` stores `v` to `TCCR4A`, the PWM
configuration register, and makes no store of `v` to the duty-cycle register
`OCR4A`, which keeps its value (127 when `set` had to call `begin()`); `set(0)`
destroys the configuration `begin()` wrote.  On the true-analog variant `A0`
holds `v`. -/
theorem C4_set_level (hw : Avr.Bits) (v : Nat) (sA : Avr.State) (sE : Express.State) :
    (Avr.set hw v sA).1.TCCR4A = v ∧
    (Avr.set hw v sA).1.OCR4A = (if sA.started then sA.OCR4A else 127) ∧
    Avr.levelWrites (Avr.set hw v sA).2 = (if sA.started then [] else [127]) ∧
    (Avr.set hw 0 sA).1.TCCR4A ≠ (Avr.begin hw sA).1.TCCR4A ∧
    (Avr.set hw 0 Avr.inactive).1.OCR4A = 127 ∧
    (Express.set v sE).1.levelA0 = v := by
  refine ⟨rfl, ?_, ?_, ?_, rfl, rfl⟩
  · cases hs : sA.started <;> simp [Avr.set, hs, Avr.begin]
  · cases hs : sA.started <;> simp [Avr.set, hs, Avr.begin, Avr.levelWrites]
  · have h := Avr.pwmConfig_ne_zero hw
    show 0 ≠ Avr._BV hw.COM4A0 ||| Avr._BV hw.PWM4A
    exact fun h0 => h h0.symm

/-- C5 on the code: on the true-analog variant `begin()` and `set(v)` leave the
flag `started` as it was, so `set(v)` on an inactive driver yields an inactive
driver; on the timer variant the resulting state has `started = true`.  On both
variants `set(v)` on an inactive driver reaches the state of `begin()` followed by
`set(v)`. -/
theorem C5_set_activates (hw : Avr.Bits) (v : Nat) (sA : Avr.State) (sE : Express.State) :
    (Express.begin sE).1.started = sE.started ∧
    (Express.set v sE).1.started = sE.started ∧
    (Express.set v Express.inactive).1.started = false ∧
    (Avr.set hw v sA).1.started = true ∧
    (Express.set v { sE with started := false }).1
      = (Express.set v (Express.begin { sE with started := false }).1).1 ∧
    (Avr.set hw v { sA with started := false }).1
      = (Avr.set hw v (Avr.begin hw { sA with started := false }).1).1 := by
  refine ⟨rfl, ?_, rfl, ?_, rfl, rfl⟩
  · cases hs : sE.started <;> simp [Express.set, hs, Express.begin]
  · cases hs : sA.started <;> simp [Avr.set, hs, Avr.begin]

/-- C6 on the code: on the true-analog variant `playSound` on an inactive driver
(pin `A0` an input, write resolution 10) plays one sample without calling
`begin()`: the log has no `pinMode` or `analogWriteResolution`, the pin is still an
input and the resolution still 10 when it returns, while `begin()` followed by
`playSound` ends with the pin an output and the resolution 8. -/
theorem C6_playSound_without_begin :
    Express.playSound msClock 3 fiveSamples 1 8000 false Express.inactive
      = .ok ({ Express.inactive with levelA0 := 127 },
          [.load 0, .analogWrite .A0 0, .analogWrite .A0 127]) ∧
    Express.playSound msClock 3 fiveSamples 1 8000 false (Express.begin Express.inactive).1
      = .ok ({ Express.inactive with
                writeResolution := 8, modeA0 := .OUTPUT, levelA0 := 127 },
          [.load 0, .analogWrite .A0 0, .analogWrite .A0 127]) ∧
    ({ Express.inactive with levelA0 := 127 } : Express.State).modeA0 = .INPUT ∧
    ({ Express.inactive with levelA0 := 127 } : Express.State).writeResolution = 10 := by
  decide

/-- C8, as the code has it: on the timer variant, for every requested rate, zero
included, the divisor of the interval computation is the clamped rate, at least
7620, and `playSound` does not end in a division by zero; on the clock-polling
variant, for every non-zero rate, `playSound` does not end in a division by
zero. -/
theorem C8_no_division_by_zero (hw : Avr.Bits) (F_CPU : Nat) (dataA : Nat → Nat)
    (lenA rateA : Nat) (tenBitA : Bool) (sA : Avr.State)
    (micros : Nat → Nat) (fuel : Nat) (dataE : Nat → Nat) (lenE rateE : Nat)
    (tenBitE : Bool) (sE : Express.State) (hrate : rateE ≠ 0) :
    7620 ≤ Avr.clampRate rateA ∧
    Avr.playSound hw F_CPU dataA lenA rateA tenBitA sA ≠ .error .divideByZero ∧
    Express.playSound micros fuel dataE lenE rateE tenBitE sE ≠ .error .divideByZero := by
  refine ⟨?_, ?_, ?_⟩
  · unfold Avr.clampRate
    split <;> omega
  · obtain ⟨iv, P, -, -, -, h⟩ := Avr.playSound_run hw F_CPU dataA lenA rateA tenBitA sA
    rw [h]
    simp
  · unfold Express.playSound
    simp only
    have h1 := Express.sampleFor_no_div micros dataE (micros 0 % 2 ^ 32) (rateE / 2) rateE
      fuel hrate lenE 0 1 sE
    split
    · rename_i f hf
      intro h
      simp only [Except.error.injEq] at h
      subst h
      exact h1 hf
    · rename_i i k s1 l _
      have h2 := Express.busyWait_no_div micros (micros 0 % 2 ^ 32) i (rateE / 2) rateE
        hrate fuel k
      split
      · rename_i f hf
        intro h
        simp only [Except.error.injEq] at h
        subst h
        exact h2 hf
      · simp

/-- C8 on two five-sample playbacks, the timer variant at a requested rate of 0. -/
theorem C8_no_division_by_zero_witness :
    7620 ≤ Avr.clampRate 0 ∧
    Avr.playSound Avr.mega32u4 8000000 fiveSamples 5 0 false Avr.inactive
      ≠ .error .divideByZero ∧
    Express.playSound msClock 3 fiveSamples 5 8000 false Express.inactive
      ≠ .error .divideByZero :=
  C8_no_division_by_zero Avr.mega32u4 8000000 fiveSamples 5 0 false Avr.inactive
    msClock 3 fiveSamples 5 8000 false Express.inactive (by decide)

/-- C8 as stated fails on the clock-polling variant: with a sample rate of 0 the
first evaluation of the wait condition divides by zero, for an empty buffer as
for a buffer of five samples. -/
theorem C8_counterexample :
    Express.playSound msClock 3 fiveSamples 0 0 false Express.inactive
      = .error .divideByZero ∧
    Express.playSound msClock 3 fiveSamples 5 0 false Express.inactive
      = .error .divideByZero := by
  decide

end CPlay
